import Mathlib

/-!
Shallow embedding of the Horarios shift-scheduling core
(src/core/schedule.py, src/core/worker.py, src/core/constraints.py,
src/utils/compensation.py, src/config/settings.py,
src/algorithms/balancer.py, src/algorithms/day_off_planner.py,
src/algorithms/repair.py, src/algorithms/common.py,
src/algorithms/generator.py), together with theorems settling the
frozen claims about it.

Modelling conventions:
* A calendar date is the number of days since 2025-01-01, the epoch the
  code itself uses in `check_adequate_rest` (`datetime(2025, 1, 1)`).
  2025-01-01 is a Wednesday, so Python's `date.weekday()` is
  `(d + 2) % 7`.  Month/day for the holiday table are obtained by real
  Gregorian calendar stepping from 2025-01-01.
* Python float compensation arithmetic only ever combines the rates
  1.0, 1.5, 2.0, 2.5 and the factor 1.25 by sums, differences,
  comparisons, and one product (1.25 times a weekend rate).  All values
  are exact multiples of 1/8, and 1.25 times a multiple of 1/2 is again
  a multiple of 1/8, so every float the code manipulates is represented
  exactly; money is therefore modelled as an integer count of eighths
  (`Money`), under which all of these operations are exact.
* Python object mutation is modelled by explicit state passing: the
  `Schedule` state carries the slot grid and the worker roster, and the
  mutating operations return the updated state.
-/

namespace Horarios

/-- The three shift types of `SHIFT_TYPES` (`Mañana`, `Tarde`, `Noche`). -/
inductive ShiftType
  | manana
  | tarde
  | noche
deriving DecidableEq, Repr

/-- A calendar date, as days since the 2025-01-01 epoch used by
`check_adequate_rest`. -/
abbrev Date := Nat

/-- `shift_indices` : Mañana=0, Tarde=1, Noche=2. -/
def shiftIndex : ShiftType → Nat
  | .manana => 0
  | .tarde => 1
  | .noche => 2

/-- Timeline position of a `(date, shift_type)` pair:
`day_offset * 3 + shift_index` (src/core/constraints.py). -/
def timelinePos (d : Date) (st : ShiftType) : Nat :=
  d * 3 + shiftIndex st

/-- Money in units of 1/8 of the base day rate: every compensation
value and every earnings total of the program is such a multiple, so
this integer representation is exact (see the module comment). -/
abbrev Money := Int

/-- `Worker` (src/core/worker.py): id, class flag, list of
`(date, shift_type)` pairs, running earnings, list of days off.
The display prefix string is derived data and is not modelled. -/
structure Worker where
  id : Nat
  isTechnologist : Bool
  shifts : List (Date × ShiftType)
  earnings : Money
  daysOff : List Date
deriving DecidableEq, Repr

/-- `check_adequate_rest` (src/core/constraints.py lines 8-34): returns
`true` iff no existing shift sits at timeline distance 1 or 2 from the
proposed one. -/
def check_adequate_rest (w : Worker) (d : Date) (st : ShiftType) : Bool :=
  let newPos := timelinePos d st
  w.shifts.all fun p =>
    let diff := ((newPos : ℤ) - timelinePos p.1 p.2).natAbs
    !(decide (0 < diff) && decide (diff ≤ 2))

/-- `check_adequate_rest_relaxed` (src/core/constraints.py lines 36-63):
only rejects timeline distance exactly 1. -/
def check_adequate_rest_relaxed (w : Worker) (d : Date) (st : ShiftType) : Bool :=
  let newPos := timelinePos d st
  w.shifts.all fun p =>
    let diff := ((newPos : ℤ) - timelinePos p.1 p.2).natAbs
    !(decide (diff = 1))

/-- `check_night_to_day_transition` (src/core/constraints.py lines
65-78): violation iff the proposed shift is Morning and the worker
worked Night on the previous calendar day.  With dates as `Nat`, day 0
has no previous day inside the model's domain; the code compares
`d == date - 1` on exact dates, which for `date = 0` matches no
nonnegative date, mirrored here by requiring `p.1 + 1 = d`. -/
def check_night_to_day_transition (w : Worker) (d : Date) (st : ShiftType) : Bool :=
  if st = .manana then
    w.shifts.any fun p => decide (p.1 + 1 = d) && decide (p.2 = ShiftType.noche)
  else
    false

/-- `check_consecutive_shifts` (src/core/constraints.py lines 80-96):
violation iff the worker already has a shift on the same date whose
shift index is adjacent (±1). -/
def check_consecutive_shifts (w : Worker) (d : Date) (st : ShiftType) : Bool :=
  w.shifts.any fun p =>
    decide (p.1 = d) &&
      decide (((shiftIndex st : ℤ) - shiftIndex p.2).natAbs = 1)

/- ### Calendar and compensation -/

/-- Python `date.weekday()`: Monday = 0 … Sunday = 6.
2025-01-01 is a Wednesday (weekday 2). -/
def pyWeekday (d : Date) : Nat := (d + 2) % 7

/-- Saturday/Sunday test (`date.weekday() >= 5`). -/
def isWeekendDate (d : Date) : Bool := decide (5 ≤ pyWeekday d)

/-- Gregorian leap-year rule. -/
def isLeapYear (y : Nat) : Bool :=
  (y % 4 == 0 && y % 100 != 0) || y % 400 == 0

/-- Days in a Gregorian month. -/
def daysInMonth (y m : Nat) : Nat :=
  if m = 2 then (if isLeapYear y then 29 else 28)
  else if m = 4 ∨ m = 6 ∨ m = 9 ∨ m = 11 then 30
  else 31

/-- Step one calendar day on a `(year, month, day)` triple. -/
def nextYMD : Nat × Nat × Nat → Nat × Nat × Nat
  | (y, m, d) =>
    if d < daysInMonth y m then (y, m, d + 1)
    else if m < 12 then (y, m + 1, 1)
    else (y + 1, 1, 1)

/-- `(year, month, day)` of a date, by stepping from 2025-01-01. -/
def ymd (d : Date) : Nat × Nat × Nat :=
  nextYMD^[d] (2025, 1, 1)

/-- `COLOMBIAN_HOLIDAYS_2025` (src/config/settings.py) as
(month, day) pairs; `is_colombian_holiday` compares only `"%m-%d"`. -/
def colombianHolidays2025 : List (Nat × Nat) :=
  [(1, 1), (1, 6), (3, 24), (4, 17), (4, 18), (5, 1), (6, 2), (6, 23),
   (6, 30), (7, 7), (7, 20), (8, 7), (8, 18), (10, 13), (11, 3),
   (11, 17), (12, 8), (12, 25)]

/-- `is_colombian_holiday` (src/config/__init__.py): membership of the
date's month-day in the holiday table. -/
def is_colombian_holiday (d : Date) : Bool :=
  decide ((ymd d).2 ∈ colombianHolidays2025)

/-- `COMPENSATION_RATES` (src/config/settings.py), in eighths:
DIURNO 1.0, NOCTURNO 1.5, FIN_DE_SEMANA_DIURNO 2.0,
FIN_DE_SEMANA_NOCTURNO 2.5. -/
def rateDiurno : Money := 8
def rateNocturno : Money := 12
def rateFinDeSemanaDiurno : Money := 16
def rateFinDeSemanaNocturno : Money := 20

/-- `calculate_compensation` (src/utils/compensation.py lines 7-59),
mirroring the code's structure: pick a base rate from the
weekend/night combination, then adjust for holidays. -/
def calculate_compensation (d : Date) (st : ShiftType) : Money :=
  let isWeekend := isWeekendDate d
  let isNight := st = ShiftType.noche
  let baseRate :=
    if isWeekend ∧ isNight then rateFinDeSemanaNocturno
    else if isWeekend then rateFinDeSemanaDiurno
    else if isNight then rateNocturno
    else rateDiurno
  if is_colombian_holiday d then
    if isWeekend then baseRate * 5 / 4
    else if isNight then rateFinDeSemanaNocturno
    else rateFinDeSemanaDiurno
  else baseRate

/-- Weekend day/night rate table, as named by the specification. -/
def weekendRate (st : ShiftType) : Money :=
  if st = ShiftType.noche then rateFinDeSemanaNocturno else rateFinDeSemanaDiurno

/-- Regular day/night rate table, as named by the specification. -/
def regularRate (st : ShiftType) : Money :=
  if st = ShiftType.noche then rateNocturno else rateDiurno

/-- The compensation rule exactly as the specification words it (claim
C6 precedence): holiday ∧ weekend → weekend rate × 1.25; holiday alone →
weekend rate; plain weekend → weekend rate; otherwise regular rate. -/
def compensationSpec (d : Date) (st : ShiftType) : Money :=
  if is_colombian_holiday d then
    if isWeekendDate d then weekendRate st * 5 / 4 else weekendRate st
  else if isWeekendDate d then weekendRate st
  else regularRate st

/-- C6 -- `calculate_compensation` is a pure function of `(date,
shift_type)` implementing the claimed precedence: holiday+weekend gives
the weekend day/night rate stacked with the extra 1.25 factor,
holiday alone gives the weekend rate, plain weekends give the weekend
rate, and all other days the regular day/night rate.  Determinism is
inherent: the embedding is a function of its two arguments only. -/
theorem calculate_compensation_matches_spec (d : Date) (st : ShiftType) :
    calculate_compensation d st = compensationSpec d st := by
  unfold calculate_compensation compensationSpec weekendRate regularRate
  rcases h : is_colombian_holiday d <;>
    rcases hw : isWeekendDate d <;>
      rcases hn : decide (st = ShiftType.noche) <;>
        simp_all

/-- Every compensation value is at least the base day rate (8 eighths,
i.e. 1.0), so in particular positive: each branch of the rate table
yields 8, 12, 16 or 20, and the holiday adjustment multiplies by 5/4 or
substitutes a weekend rate. -/
theorem one_le_calculate_compensation (d : Date) (st : ShiftType) :
    8 ≤ calculate_compensation d st := by
  unfold calculate_compensation
  rcases is_colombian_holiday d <;> rcases isWeekendDate d <;>
    rcases h : decide (st = ShiftType.noche) <;>
      simp_all [rateDiurno, rateNocturno, rateFinDeSemanaDiurno,
        rateFinDeSemanaNocturno]

/-- C5 -- `check_adequate_rest` rejects exactly when some existing shift
sits at timeline distance 1 or 2 from the proposed position, and
`check_adequate_rest_relaxed` rejects exactly at distance 1 (so the
relaxed variant permits a gap of 2). -/
theorem adequate_rest_characterization (w : Worker) (d : Date) (st : ShiftType) :
    (check_adequate_rest w d st = false ↔
      ∃ p ∈ w.shifts,
        0 < ((timelinePos d st : ℤ) - timelinePos p.1 p.2).natAbs ∧
          ((timelinePos d st : ℤ) - timelinePos p.1 p.2).natAbs ≤ 2) ∧
    (check_adequate_rest_relaxed w d st = false ↔
      ∃ p ∈ w.shifts,
        ((timelinePos d st : ℤ) - timelinePos p.1 p.2).natAbs = 1) := by
  constructor
  · rw [← Bool.not_eq_true, check_adequate_rest]
    simp [List.all_eq_true]
  · rw [← Bool.not_eq_true, check_adequate_rest_relaxed]
    simp [List.all_eq_true]

/- ### Schedule state and its mutation primitives -/

/-- One `(date, shift_type)` slot (src/core/schedule.py day structure):
a list of technologist ids and at most one engineer id.  The static
`hours` display string is not modelled. -/
structure Slot where
  technologists : List Nat
  engineer : Option Nat
deriving DecidableEq, Repr

/-- A freshly initialized slot. -/
def Slot.empty : Slot := ⟨[], none⟩

/-- `Schedule` (src/core/schedule.py): date range, slot grid and worker
roster.  The Python `_day_cache` contains exactly the dates of the
inclusive range, so range membership is modelled by the bounds and the
grid is total. -/
structure Schedule where
  startDate : Date
  endDate : Date
  slots : Date → ShiftType → Slot
  workers : List Worker

/-- Date lies in the schedule's day cache. -/
def Schedule.inRange (s : Schedule) (d : Date) : Bool :=
  decide (s.startDate ≤ d ∧ d ≤ s.endDate)

/-- Pointwise update of the slot grid at one `(date, shift_type)`. -/
def updateSlot (f : Date → ShiftType → Slot) (d : Date) (st : ShiftType)
    (v : Slot) : Date → ShiftType → Slot :=
  fun d' st' => if d' = d ∧ st' = st then v else f d' st'

/-- `Worker.add_shift` (src/core/worker.py lines 52-58): append the
shift and add its compensation to the running earnings. -/
def Worker.add_shift (w : Worker) (d : Date) (st : ShiftType) : Worker :=
  { w with shifts := w.shifts ++ [(d, st)],
           earnings := w.earnings + calculate_compensation d st }

/-- The `worker.shifts` list-comprehension filter used by
`remove_worker_from_shift` (src/core/schedule.py line 153): drop every
entry equal to `(d, st)`; earnings are left untouched, exactly as in the
source. -/
def Worker.dropShift (w : Worker) (d : Date) (st : ShiftType) : Worker :=
  { w with shifts := w.shifts.filter fun p => !(decide (p.1 = d) && decide (p.2 = st)) }

/-- `Schedule.assign_worker` (src/core/schedule.py lines 74-120) acting
on one worker value: returns the updated slot grid, the updated worker
and the success flag.  A technologist is appended only if not already in
the slot's list; an engineer overwrites the slot's engineer id; on
success `Worker.add_shift` runs.  Out-of-range dates fail. -/
def assign_worker (s : Schedule) (w : Worker) (d : Date) (st : ShiftType) :
    (Date → ShiftType → Slot) × Worker × Bool :=
  if s.inRange d then
    let slot := s.slots d st
    if w.isTechnologist then
      if w.id ∈ slot.technologists then (s.slots, w, false)
      else
        (updateSlot s.slots d st
          { slot with technologists := slot.technologists ++ [w.id] },
         w.add_shift d st, true)
    else
      (updateSlot s.slots d st { slot with engineer := some w.id },
       w.add_shift d st, true)
  else (s.slots, w, false)

/-- `Schedule.remove_worker_from_shift` (src/core/schedule.py lines
122-155) acting on one worker value: remove the id from the slot data
and, if something was removed, filter the matching entries out of the
worker's shifts (Python `list.remove` drops the first occurrence,
modelled by `List.erase`). -/
def remove_worker_from_shift (s : Schedule) (w : Worker) (d : Date) (st : ShiftType) :
    (Date → ShiftType → Slot) × Worker × Bool :=
  if s.inRange d then
    let slot := s.slots d st
    if w.isTechnologist then
      if w.id ∈ slot.technologists then
        (updateSlot s.slots d st
          { slot with technologists := slot.technologists.erase w.id },
         w.dropShift d st, true)
      else (s.slots, w, false)
    else
      if slot.engineer = some w.id then
        (updateSlot s.slots d st { slot with engineer := none },
         w.dropShift d st, true)
      else (s.slots, w, false)
  else (s.slots, w, false)

/-- Apply `assign_worker` to the roster entry at index `i`, storing the
updated worker back (Python mutates the aliased object in
`schedule.workers`).  On failure nothing changes. -/
def Schedule.assignAt (s : Schedule) (i : Nat) (d : Date) (st : ShiftType) : Schedule :=
  match s.workers[i]? with
  | none => s
  | some w =>
    if (assign_worker s w d st).2.2 then
      { s with slots := (assign_worker s w d st).1,
               workers := s.workers.set i (assign_worker s w d st).2.1 }
    else s

/-- Apply `remove_worker_from_shift` to the roster entry at index `i`. -/
def Schedule.removeAt (s : Schedule) (i : Nat) (d : Date) (st : ShiftType) : Schedule :=
  match s.workers[i]? with
  | none => s
  | some w =>
    if (remove_worker_from_shift s w d st).2.2 then
      { s with slots := (remove_worker_from_shift s w d st).1,
               workers := s.workers.set i (remove_worker_from_shift s w d st).2.1 }
    else s

/-- A sanctioned mutation of the schedule: one of the two primitives,
aimed at roster index `i`. -/
inductive Op
  | assign (i : Nat) (d : Date) (st : ShiftType)
  | remove (i : Nat) (d : Date) (st : ShiftType)
deriving DecidableEq, Repr

/-- Whether the operation is an `assign_worker` call. -/
def Op.isAssign : Op → Bool
  | .assign _ _ _ => true
  | .remove _ _ _ => false

/-- Execute one operation. -/
def Schedule.applyOp (s : Schedule) : Op → Schedule
  | .assign i d st => s.assignAt i d st
  | .remove i d st => s.removeAt i d st

/-- Execute a trace of operations left to right. -/
def Schedule.run (s : Schedule) (ops : List Op) : Schedule :=
  ops.foldl Schedule.applyOp s

/-- A worker fresh from `Worker.__init__`: empty shifts and days off,
zero earnings. -/
def initialWorker (p : Nat × Bool) : Worker :=
  ⟨p.1, p.2, [], 0, []⟩

/-- A schedule fresh from `Schedule.__init__`: empty slots for the whole
range and a roster of fresh workers built from `(id, is_technologist)`
pairs (src/main.py lines 60-61). -/
def Schedule.mkInitial (a b : Date) (roster : List (Nat × Bool)) : Schedule :=
  ⟨a, b, fun _ _ => Slot.empty, roster.map initialWorker⟩

/- ### Invariants of the mutation primitives -/

/-- Ids are unique within each worker class (src/main.py numbers each
class 1..n; a technologist and an engineer may share an id). -/
def ClassUniqueIds (ws : List Worker) : Prop :=
  ∀ i j (hi : i < ws.length) (hj : j < ws.length), i ≠ j →
    ws[i].isTechnologist = ws[j].isTechnologist → ws[i].id ≠ ws[j].id

/-- No technologist id is duplicated inside a single slot. -/
def SlotsNodup (s : Schedule) : Prop :=
  ∀ d st, (s.slots d st).technologists.Nodup

/-- Mirror consistency for technologists: the id is in the slot's list
iff the `(date, shift_type)` pair is in the worker's shifts. -/
def TechMirror (s : Schedule) : Prop :=
  ∀ i (hi : i < s.workers.length), s.workers[i].isTechnologist = true →
    ∀ d st, s.workers[i].id ∈ (s.slots d st).technologists ↔
      (d, st) ∈ s.workers[i].shifts

/-- Technologists never record the same `(date, shift_type)` twice. -/
def TechShiftsNodup (s : Schedule) : Prop :=
  ∀ i (hi : i < s.workers.length), s.workers[i].isTechnologist = true →
    s.workers[i].shifts.Nodup

/-- Sound direction for engineers: if a slot names an engineer, that
engineer's shifts contain the matching pair.  (The converse direction is
exactly what an overwriting `assign_worker` breaks.) -/
def EngSlotSound (s : Schedule) : Prop :=
  ∀ i (hi : i < s.workers.length), s.workers[i].isTechnologist = false →
    ∀ d st, (s.slots d st).engineer = some (s.workers[i].id) →
      (d, st) ∈ s.workers[i].shifts

/-- The inductive invariant preserved by the two sanctioned mutation
primitives. -/
structure Inv (s : Schedule) : Prop where
  uniq : ClassUniqueIds s.workers
  slotsNodup : SlotsNodup s
  techMirror : TechMirror s
  techShiftsNodup : TechShiftsNodup s
  engSound : EngSlotSound s

@[simp]
theorem add_shift_id (w : Worker) (d : Date) (st : ShiftType) :
    (w.add_shift d st).id = w.id := rfl

@[simp]
theorem add_shift_isTechnologist (w : Worker) (d : Date) (st : ShiftType) :
    (w.add_shift d st).isTechnologist = w.isTechnologist := rfl

@[simp]
theorem add_shift_shifts (w : Worker) (d : Date) (st : ShiftType) :
    (w.add_shift d st).shifts = w.shifts ++ [(d, st)] := rfl

@[simp]
theorem add_shift_earnings (w : Worker) (d : Date) (st : ShiftType) :
    (w.add_shift d st).earnings = w.earnings + calculate_compensation d st := rfl

@[simp]
theorem dropShift_id (w : Worker) (d : Date) (st : ShiftType) :
    (w.dropShift d st).id = w.id := rfl

@[simp]
theorem dropShift_isTechnologist (w : Worker) (d : Date) (st : ShiftType) :
    (w.dropShift d st).isTechnologist = w.isTechnologist := rfl

@[simp]
theorem dropShift_earnings (w : Worker) (d : Date) (st : ShiftType) :
    (w.dropShift d st).earnings = w.earnings := rfl

theorem dropShift_mem (w : Worker) (d : Date) (st : ShiftType) (p : Date × ShiftType) :
    p ∈ (w.dropShift d st).shifts ↔ p ∈ w.shifts ∧ p ≠ (d, st) := by
  simp [Worker.dropShift, List.mem_filter, Prod.ext_iff, not_and, Decidable.imp_iff_not_or]

@[simp]
theorem updateSlot_same (f : Date → ShiftType → Slot) (d : Date) (st : ShiftType)
    (v : Slot) : updateSlot f d st v d st = v := by
  simp [updateSlot]

theorem updateSlot_other (f : Date → ShiftType → Slot) (d : Date) (st : ShiftType)
    (v : Slot) (d' : Date) (st' : ShiftType) (h : ¬(d' = d ∧ st' = st)) :
    updateSlot f d st v d' st' = f d' st' := by
  simp [updateSlot, h]

theorem nodup_append_singleton {α} {l : List α} {a : α}
    (hl : l.Nodup) (ha : a ∉ l) : (l ++ [a]).Nodup := by
  have : (l ++ [a]).Nodup ↔ (a :: l).Nodup := (List.perm_append_singleton a l).nodup_iff
  rw [this, List.nodup_cons]
  exact ⟨ha, hl⟩

theorem classUniqueIds_set {ws : List Worker} (h : ClassUniqueIds ws)
    {i : Nat} (hi : i < ws.length) {a : Worker}
    (hid : a.id = ws[i].id) (hcl : a.isTechnologist = ws[i].isTechnologist) :
    ClassUniqueIds (ws.set i a) := by
  intro p q hp hq hne hcl'
  rw [List.length_set] at hp hq
  simp only [List.getElem_set] at hcl' ⊢
  by_cases hip : i = p <;> by_cases hiq : i = q
  · omega
  · rw [if_pos hip, if_neg hiq] at hcl' ⊢
    subst hip
    rw [hid]
    exact h i q hi hq hiq (hcl.symm.trans hcl')
  · rw [if_neg hip, if_pos hiq] at hcl' ⊢
    subst hiq
    rw [hid]
    exact h p i hp hi hne (hcl'.trans hcl)
  · rw [if_neg hip, if_neg hiq] at hcl' ⊢
    exact h p q hp hq hne hcl'

theorem inv_assign_tech {s : Schedule} (h : Inv s) {i : Nat} (hi : i < s.workers.length)
    {w : Worker} (hw : s.workers[i] = w) (htech : w.isTechnologist = true)
    (d : Date) (st : ShiftType) (hmem : w.id ∉ (s.slots d st).technologists) :
    Inv { s with
      slots := updateSlot s.slots d st
        { s.slots d st with technologists := (s.slots d st).technologists ++ [w.id] },
      workers := s.workers.set i (w.add_shift d st) } := by
  have hci : s.workers[i].isTechnologist = true := by rw [hw]; exact htech
  have hmir : ∀ d0 st0, w.id ∈ (s.slots d0 st0).technologists ↔ (d0, st0) ∈ w.shifts := by
    intro d0 st0
    have := h.techMirror i hi hci d0 st0
    rwa [hw] at this
  constructor
  · exact classUniqueIds_set h.uniq hi (by simp [hw]) (by simp [hw])
  · intro d' st'
    dsimp only
    by_cases hds : d' = d ∧ st' = st
    · obtain ⟨rfl, rfl⟩ := hds
      rw [updateSlot_same]
      exact nodup_append_singleton (h.slotsNodup d' st') hmem
    · rw [updateSlot_other _ _ _ _ _ _ hds]
      exact h.slotsNodup d' st'
  · intro j hj htj d' st'
    dsimp only at hj htj ⊢
    have hj' : j < s.workers.length := by simpa using hj
    simp only [List.getElem_set] at htj ⊢
    by_cases hij : i = j
    · rw [if_pos hij] at htj ⊢
      subst hij
      simp only [add_shift_id, add_shift_shifts]
      by_cases hds : d' = d ∧ st' = st
      · obtain ⟨rfl, rfl⟩ := hds
        rw [updateSlot_same]
        simp
      · rw [updateSlot_other _ _ _ _ _ _ hds]
        rw [List.mem_append, List.mem_singleton]
        constructor
        · intro hx
          exact Or.inl ((hmir d' st').mp hx)
        · rintro (hx | hx)
          · exact (hmir d' st').mpr hx
          · cases hx
            exact absurd ⟨rfl, rfl⟩ hds
    · rw [if_neg hij] at htj ⊢
      have hne : s.workers[j].id ≠ w.id := by
        intro hEq
        exact h.uniq j i hj' hi (fun hh => hij hh.symm) (htj.trans hci.symm)
          (hEq.trans (by rw [hw]))
      by_cases hds : d' = d ∧ st' = st
      · obtain ⟨rfl, rfl⟩ := hds
        rw [updateSlot_same]
        dsimp only
        rw [List.mem_append, List.mem_singleton]
        have := h.techMirror j hj' htj d' st'
        simp [hne, this]
      · rw [updateSlot_other _ _ _ _ _ _ hds]
        exact h.techMirror j hj' htj d' st'
  · intro j hj htj
    dsimp only at hj htj ⊢
    have hj' : j < s.workers.length := by simpa using hj
    simp only [List.getElem_set] at htj ⊢
    by_cases hij : i = j
    · rw [if_pos hij] at htj ⊢
      subst hij
      simp only [add_shift_shifts]
      apply nodup_append_singleton
      · have := h.techShiftsNodup i hi hci
        rwa [hw] at this
      · intro hin
        exact hmem ((hmir d st).mpr hin)
    · rw [if_neg hij] at htj ⊢
      exact h.techShiftsNodup j hj' htj
  · intro j hj hengj d' st'
    dsimp only at hj hengj ⊢
    have hj' : j < s.workers.length := by simpa using hj
    simp only [List.getElem_set] at hengj ⊢
    by_cases hij : i = j
    · rw [if_pos hij] at hengj
      simp [htech] at hengj
    · rw [if_neg hij] at hengj ⊢
      intro hsl
      by_cases hds : d' = d ∧ st' = st
      · obtain ⟨rfl, rfl⟩ := hds
        rw [updateSlot_same] at hsl
        dsimp only at hsl
        exact h.engSound j hj' hengj d' st' hsl
      · rw [updateSlot_other _ _ _ _ _ _ hds] at hsl
        exact h.engSound j hj' hengj d' st' hsl

theorem inv_assign_eng {s : Schedule} (h : Inv s) {i : Nat} (hi : i < s.workers.length)
    {w : Worker} (hw : s.workers[i] = w) (heng : w.isTechnologist = false)
    (d : Date) (st : ShiftType) :
    Inv { s with
      slots := updateSlot s.slots d st { s.slots d st with engineer := some w.id },
      workers := s.workers.set i (w.add_shift d st) } := by
  have hci : s.workers[i].isTechnologist = false := by rw [hw]; exact heng
  constructor
  · exact classUniqueIds_set h.uniq hi (by simp [hw]) (by simp [hw])
  · intro d' st'
    dsimp only
    by_cases hds : d' = d ∧ st' = st
    · obtain ⟨rfl, rfl⟩ := hds
      rw [updateSlot_same]
      exact h.slotsNodup d' st'
    · rw [updateSlot_other _ _ _ _ _ _ hds]
      exact h.slotsNodup d' st'
  · intro j hj htj d' st'
    dsimp only at hj htj ⊢
    have hj' : j < s.workers.length := by simpa using hj
    simp only [List.getElem_set] at htj ⊢
    by_cases hij : i = j
    · rw [if_pos hij] at htj
      simp [heng] at htj
    · rw [if_neg hij] at htj ⊢
      by_cases hds : d' = d ∧ st' = st
      · obtain ⟨rfl, rfl⟩ := hds
        rw [updateSlot_same]
        exact h.techMirror j hj' htj d' st'
      · rw [updateSlot_other _ _ _ _ _ _ hds]
        exact h.techMirror j hj' htj d' st'
  · intro j hj htj
    dsimp only at hj htj ⊢
    have hj' : j < s.workers.length := by simpa using hj
    simp only [List.getElem_set] at htj ⊢
    by_cases hij : i = j
    · rw [if_pos hij] at htj
      simp [heng] at htj
    · rw [if_neg hij] at htj ⊢
      exact h.techShiftsNodup j hj' htj
  · intro j hj hengj d' st'
    dsimp only at hj hengj ⊢
    have hj' : j < s.workers.length := by simpa using hj
    simp only [List.getElem_set] at hengj ⊢
    by_cases hij : i = j
    · rw [if_pos hij] at hengj ⊢
      subst hij
      simp only [add_shift_id, add_shift_shifts]
      intro hsl
      by_cases hds : d' = d ∧ st' = st
      · obtain ⟨rfl, rfl⟩ := hds
        simp
      · rw [updateSlot_other _ _ _ _ _ _ hds] at hsl
        have := h.engSound i hi hci d' st'
        rw [hw] at this
        exact List.mem_append_left _ (this hsl)
    · rw [if_neg hij] at hengj ⊢
      intro hsl
      by_cases hds : d' = d ∧ st' = st
      · obtain ⟨rfl, rfl⟩ := hds
        rw [updateSlot_same] at hsl
        have hidEq : w.id = s.workers[j].id := by
          injection hsl
        exact absurd (by rw [hw]; exact hidEq)
          (h.uniq i j hi hj' hij (hci.trans hengj.symm))
      · rw [updateSlot_other _ _ _ _ _ _ hds] at hsl
        exact h.engSound j hj' hengj d' st' hsl

theorem inv_remove_tech {s : Schedule} (h : Inv s) {i : Nat} (hi : i < s.workers.length)
    {w : Worker} (hw : s.workers[i] = w) (htech : w.isTechnologist = true)
    (d : Date) (st : ShiftType) :
    Inv { s with
      slots := updateSlot s.slots d st
        { s.slots d st with technologists := (s.slots d st).technologists.erase w.id },
      workers := s.workers.set i (w.dropShift d st) } := by
  have hci : s.workers[i].isTechnologist = true := by rw [hw]; exact htech
  have hmir : ∀ d0 st0, w.id ∈ (s.slots d0 st0).technologists ↔ (d0, st0) ∈ w.shifts := by
    intro d0 st0
    have := h.techMirror i hi hci d0 st0
    rwa [hw] at this
  constructor
  · exact classUniqueIds_set h.uniq hi (by simp [hw]) (by simp [hw])
  · intro d' st'
    dsimp only
    by_cases hds : d' = d ∧ st' = st
    · obtain ⟨rfl, rfl⟩ := hds
      rw [updateSlot_same]
      exact List.Nodup.erase _ (h.slotsNodup d' st')
    · rw [updateSlot_other _ _ _ _ _ _ hds]
      exact h.slotsNodup d' st'
  · intro j hj htj d' st'
    dsimp only at hj htj ⊢
    have hj' : j < s.workers.length := by simpa using hj
    simp only [List.getElem_set] at htj ⊢
    by_cases hij : i = j
    · rw [if_pos hij] at htj ⊢
      subst hij
      simp only [dropShift_id]
      by_cases hds : d' = d ∧ st' = st
      · obtain ⟨rfl, rfl⟩ := hds
        rw [updateSlot_same]
        dsimp only
        rw [dropShift_mem]
        simp [List.Nodup.mem_erase_iff (h.slotsNodup d' st')]
      · rw [updateSlot_other _ _ _ _ _ _ hds, dropShift_mem]
        have hpne : ((d', st') : Date × ShiftType) ≠ (d, st) := by
          intro hEq
          rw [Prod.ext_iff] at hEq
          exact hds hEq
        constructor
        · intro hx
          exact ⟨(hmir d' st').mp hx, hpne⟩
        · rintro ⟨hx, -⟩
          exact (hmir d' st').mpr hx
    · rw [if_neg hij] at htj ⊢
      have hne : s.workers[j].id ≠ w.id := by
        intro hEq
        exact h.uniq j i hj' hi (fun hh => hij hh.symm) (htj.trans hci.symm)
          (hEq.trans (by rw [hw]))
      by_cases hds : d' = d ∧ st' = st
      · obtain ⟨rfl, rfl⟩ := hds
        rw [updateSlot_same]
        dsimp only
        rw [List.mem_erase_of_ne hne]
        exact h.techMirror j hj' htj d' st'
      · rw [updateSlot_other _ _ _ _ _ _ hds]
        exact h.techMirror j hj' htj d' st'
  · intro j hj htj
    dsimp only at hj htj ⊢
    have hj' : j < s.workers.length := by simpa using hj
    simp only [List.getElem_set] at htj ⊢
    by_cases hij : i = j
    · rw [if_pos hij] at htj ⊢
      subst hij
      apply List.Nodup.filter
      have := h.techShiftsNodup i hi hci
      rwa [hw] at this
    · rw [if_neg hij] at htj ⊢
      exact h.techShiftsNodup j hj' htj
  · intro j hj hengj d' st'
    dsimp only at hj hengj ⊢
    have hj' : j < s.workers.length := by simpa using hj
    simp only [List.getElem_set] at hengj ⊢
    by_cases hij : i = j
    · rw [if_pos hij] at hengj
      simp [htech] at hengj
    · rw [if_neg hij] at hengj ⊢
      intro hsl
      by_cases hds : d' = d ∧ st' = st
      · obtain ⟨rfl, rfl⟩ := hds
        rw [updateSlot_same] at hsl
        dsimp only at hsl
        exact h.engSound j hj' hengj d' st' hsl
      · rw [updateSlot_other _ _ _ _ _ _ hds] at hsl
        exact h.engSound j hj' hengj d' st' hsl

theorem inv_remove_eng {s : Schedule} (h : Inv s) {i : Nat} (hi : i < s.workers.length)
    {w : Worker} (hw : s.workers[i] = w) (heng : w.isTechnologist = false)
    (d : Date) (st : ShiftType) :
    Inv { s with
      slots := updateSlot s.slots d st { s.slots d st with engineer := none },
      workers := s.workers.set i (w.dropShift d st) } := by
  have hci : s.workers[i].isTechnologist = false := by rw [hw]; exact heng
  constructor
  · exact classUniqueIds_set h.uniq hi (by simp [hw]) (by simp [hw])
  · intro d' st'
    dsimp only
    by_cases hds : d' = d ∧ st' = st
    · obtain ⟨rfl, rfl⟩ := hds
      rw [updateSlot_same]
      exact h.slotsNodup d' st'
    · rw [updateSlot_other _ _ _ _ _ _ hds]
      exact h.slotsNodup d' st'
  · intro j hj htj d' st'
    dsimp only at hj htj ⊢
    have hj' : j < s.workers.length := by simpa using hj
    simp only [List.getElem_set] at htj ⊢
    by_cases hij : i = j
    · rw [if_pos hij] at htj
      simp [heng] at htj
    · rw [if_neg hij] at htj ⊢
      by_cases hds : d' = d ∧ st' = st
      · obtain ⟨rfl, rfl⟩ := hds
        rw [updateSlot_same]
        exact h.techMirror j hj' htj d' st'
      · rw [updateSlot_other _ _ _ _ _ _ hds]
        exact h.techMirror j hj' htj d' st'
  · intro j hj htj
    dsimp only at hj htj ⊢
    have hj' : j < s.workers.length := by simpa using hj
    simp only [List.getElem_set] at htj ⊢
    by_cases hij : i = j
    · rw [if_pos hij] at htj
      simp [heng] at htj
    · rw [if_neg hij] at htj ⊢
      exact h.techShiftsNodup j hj' htj
  · intro j hj hengj d' st'
    dsimp only at hj hengj ⊢
    have hj' : j < s.workers.length := by simpa using hj
    simp only [List.getElem_set] at hengj ⊢
    by_cases hij : i = j
    · rw [if_pos hij] at hengj ⊢
      subst hij
      simp only [dropShift_id]
      intro hsl
      by_cases hds : d' = d ∧ st' = st
      · obtain ⟨rfl, rfl⟩ := hds
        rw [updateSlot_same] at hsl
        simp at hsl
      · rw [updateSlot_other _ _ _ _ _ _ hds] at hsl
        have hpne : ((d', st') : Date × ShiftType) ≠ (d, st) := by
          intro hEq
          rw [Prod.ext_iff] at hEq
          exact hds hEq
        have := h.engSound i hi hci d' st'
        rw [hw] at this
        rw [dropShift_mem]
        exact ⟨this hsl, hpne⟩
    · rw [if_neg hij] at hengj ⊢
      intro hsl
      by_cases hds : d' = d ∧ st' = st
      · obtain ⟨rfl, rfl⟩ := hds
        rw [updateSlot_same] at hsl
        simp at hsl
      · rw [updateSlot_other _ _ _ _ _ _ hds] at hsl
        exact h.engSound j hj' hengj d' st' hsl

theorem assign_worker_out {s : Schedule} {w : Worker} {d : Date} {st : ShiftType}
    (hr : s.inRange d = false) : assign_worker s w d st = (s.slots, w, false) := by
  simp [assign_worker, hr]

theorem assign_worker_dup {s : Schedule} {w : Worker} {d : Date} {st : ShiftType}
    (hr : s.inRange d = true) (ht : w.isTechnologist = true)
    (hm : w.id ∈ (s.slots d st).technologists) :
    assign_worker s w d st = (s.slots, w, false) := by
  simp [assign_worker, hr, ht, hm]

theorem assign_worker_tech {s : Schedule} {w : Worker} {d : Date} {st : ShiftType}
    (hr : s.inRange d = true) (ht : w.isTechnologist = true)
    (hm : w.id ∉ (s.slots d st).technologists) :
    assign_worker s w d st =
      (updateSlot s.slots d st
        { s.slots d st with technologists := (s.slots d st).technologists ++ [w.id] },
       w.add_shift d st, true) := by
  simp [assign_worker, hr, ht, hm]

theorem assign_worker_eng {s : Schedule} {w : Worker} {d : Date} {st : ShiftType}
    (hr : s.inRange d = true) (ht : w.isTechnologist = false) :
    assign_worker s w d st =
      (updateSlot s.slots d st { s.slots d st with engineer := some w.id },
       w.add_shift d st, true) := by
  simp [assign_worker, hr, ht]

theorem remove_worker_out {s : Schedule} {w : Worker} {d : Date} {st : ShiftType}
    (hr : s.inRange d = false) :
    remove_worker_from_shift s w d st = (s.slots, w, false) := by
  simp [remove_worker_from_shift, hr]

theorem remove_worker_tech_mem {s : Schedule} {w : Worker} {d : Date} {st : ShiftType}
    (hr : s.inRange d = true) (ht : w.isTechnologist = true)
    (hm : w.id ∈ (s.slots d st).technologists) :
    remove_worker_from_shift s w d st =
      (updateSlot s.slots d st
        { s.slots d st with technologists := (s.slots d st).technologists.erase w.id },
       w.dropShift d st, true) := by
  simp [remove_worker_from_shift, hr, ht, hm]

theorem remove_worker_tech_absent {s : Schedule} {w : Worker} {d : Date} {st : ShiftType}
    (hr : s.inRange d = true) (ht : w.isTechnologist = true)
    (hm : w.id ∉ (s.slots d st).technologists) :
    remove_worker_from_shift s w d st = (s.slots, w, false) := by
  simp [remove_worker_from_shift, hr, ht, hm]

theorem remove_worker_eng_cur {s : Schedule} {w : Worker} {d : Date} {st : ShiftType}
    (hr : s.inRange d = true) (ht : w.isTechnologist = false)
    (hc : (s.slots d st).engineer = some w.id) :
    remove_worker_from_shift s w d st =
      (updateSlot s.slots d st { s.slots d st with engineer := none },
       w.dropShift d st, true) := by
  simp [remove_worker_from_shift, hr, ht, hc]

theorem remove_worker_eng_other {s : Schedule} {w : Worker} {d : Date} {st : ShiftType}
    (hr : s.inRange d = true) (ht : w.isTechnologist = false)
    (hc : ¬(s.slots d st).engineer = some w.id) :
    remove_worker_from_shift s w d st = (s.slots, w, false) := by
  simp [remove_worker_from_shift, hr, ht, hc]

theorem getElem?_some_lt {α} {l : List α} {i : Nat} {a : α} (h : l[i]? = some a) :
    i < l.length := by
  by_contra hlt
  rw [List.getElem?_eq_none (by omega)] at h
  cases h

theorem getElem?_some_eq {α} {l : List α} {i : Nat} {a : α} (h : l[i]? = some a)
    (hi : i < l.length) : l[i] = a := by
  have := List.getElem?_eq_getElem hi
  rw [h] at this
  injection this with h2
  exact h2.symm

/-- `assign_worker` preserves the invariant when applied at a roster
index. -/
theorem inv_assignAt {s : Schedule} (h : Inv s) (i : Nat) (d : Date) (st : ShiftType) :
    Inv (s.assignAt i d st) := by
  unfold Schedule.assignAt
  cases hw : s.workers[i]? with
  | none => exact h
  | some w =>
    dsimp only
    have hi : i < s.workers.length := getElem?_some_lt hw
    have hwi : s.workers[i] = w := getElem?_some_eq hw hi
    cases hr : s.inRange d with
    | false =>
      rw [assign_worker_out hr]
      exact h
    | true =>
      cases ht : w.isTechnologist with
      | true =>
        by_cases hm : w.id ∈ (s.slots d st).technologists
        · rw [assign_worker_dup hr ht hm]
          exact h
        · rw [assign_worker_tech hr ht hm]
          exact inv_assign_tech h hi hwi ht d st hm
      | false =>
        rw [assign_worker_eng hr ht]
        exact inv_assign_eng h hi hwi ht d st

/-- `remove_worker_from_shift` preserves the invariant when applied at a
roster index. -/
theorem inv_removeAt {s : Schedule} (h : Inv s) (i : Nat) (d : Date) (st : ShiftType) :
    Inv (s.removeAt i d st) := by
  unfold Schedule.removeAt
  cases hw : s.workers[i]? with
  | none => exact h
  | some w =>
    dsimp only
    have hi : i < s.workers.length := getElem?_some_lt hw
    have hwi : s.workers[i] = w := getElem?_some_eq hw hi
    cases hr : s.inRange d with
    | false =>
      rw [remove_worker_out hr]
      exact h
    | true =>
      cases ht : w.isTechnologist with
      | true =>
        by_cases hm : w.id ∈ (s.slots d st).technologists
        · rw [remove_worker_tech_mem hr ht hm]
          exact inv_remove_tech h hi hwi ht d st
        · rw [remove_worker_tech_absent hr ht hm]
          exact h
      | false =>
        by_cases hc : (s.slots d st).engineer = some w.id
        · rw [remove_worker_eng_cur hr ht hc]
          exact inv_remove_eng h hi hwi ht d st
        · rw [remove_worker_eng_other hr ht hc]
          exact h

/-- Every sanctioned operation preserves the invariant. -/
theorem inv_applyOp {s : Schedule} (h : Inv s) (o : Op) : Inv (s.applyOp o) := by
  cases o with
  | assign i d st => exact inv_assignAt h i d st
  | remove i d st => exact inv_removeAt h i d st

/-- Whole traces of sanctioned operations preserve the invariant. -/
theorem inv_run {s : Schedule} (h : Inv s) (ops : List Op) : Inv (s.run ops) := by
  induction ops generalizing s with
  | nil => exact h
  | cons o rest ih => exact ih (inv_applyOp h o)

/-- The class-unique-ids requirement, phrased on the raw roster: any
two distinct roster entries of the same class have different ids. -/
def RosterClassUnique (roster : List (Nat × Bool)) : Prop :=
  roster.Pairwise fun p q => p.2 = q.2 → p.1 ≠ q.1

instance (roster : List (Nat × Bool)) : Decidable (RosterClassUnique roster) := by
  unfold RosterClassUnique
  infer_instance

/-- A fresh schedule satisfies the invariant as soon as the roster has
class-unique ids. -/
theorem inv_mkInitial (a b : Date) (roster : List (Nat × Bool))
    (hr : RosterClassUnique roster) : Inv (Schedule.mkInitial a b roster) := by
  rw [RosterClassUnique, List.pairwise_iff_getElem] at hr
  constructor
  · intro i j hi hj hne hcl
    simp only [Schedule.mkInitial, List.length_map] at hi hj
    simp only [Schedule.mkInitial, List.getElem_map, initialWorker] at hcl ⊢
    rcases Nat.lt_or_ge i j with hij | hij
    · exact hr i j hi hj hij hcl
    · have hlt : j < i := by omega
      exact fun hEq => hr j i hj hi hlt hcl.symm hEq.symm
  · intro d st
    simp [Schedule.mkInitial, Slot.empty]
  · intro j hj htj d st
    simp [Schedule.mkInitial, Slot.empty, initialWorker]
  · intro j hj htj
    simp only [Schedule.mkInitial] at hj ⊢
    rw [List.length_map] at hj
    simp [List.getElem_map, initialWorker]
  · intro j hj htj d st
    simp [Schedule.mkInitial, Slot.empty]

/- ### Behavior of repeated and failing calls -/

theorem assignAt_none {s : Schedule} {i : Nat} {d : Date} {st : ShiftType}
    (hw : s.workers[i]? = none) : s.assignAt i d st = s := by
  simp [Schedule.assignAt, hw]

theorem assignAt_of_fail {s : Schedule} {i : Nat} {d : Date} {st : ShiftType}
    {w : Worker} (hw : s.workers[i]? = some w)
    (hfail : (assign_worker s w d st).2.2 = false) : s.assignAt i d st = s := by
  simp [Schedule.assignAt, hw, hfail]

theorem assignAt_success {s : Schedule} {i : Nat} {d : Date} {st : ShiftType}
    {w : Worker} (hw : s.workers[i]? = some w)
    (hsucc : (assign_worker s w d st).2.2 = true) :
    s.assignAt i d st =
      { s with slots := (assign_worker s w d st).1,
               workers := s.workers.set i (assign_worker s w d st).2.1 } := by
  simp [Schedule.assignAt, hw, hsucc]

/- ### C1: slot/worker mirror consistency -/

/-- C1 (amended) -- for every schedule obtained from a fresh schedule by
any trace of `assign_worker`/`remove_worker_from_shift` operations over a
roster with class-unique ids: a technologist's id is in a slot's list
iff the matching pair is in that worker's shifts, and whenever a slot
names an engineer, the pair is in that engineer's shifts.  (The converse
engineer direction claimed by the specification is false: an overwriting
`assign_worker` leaves the displaced engineer's stale shifts entry, see
the counterexample.) -/
theorem mirror_consistency_run (a b : Date) (roster : List (Nat × Bool))
    (hr : RosterClassUnique roster) (ops : List Op) :
    TechMirror ((Schedule.mkInitial a b roster).run ops) ∧
      EngSlotSound ((Schedule.mkInitial a b roster).run ops) :=
  let h := inv_run (inv_mkInitial a b roster hr) ops
  ⟨h.techMirror, h.engSound⟩

/-- Witness for `mirror_consistency_run` at a concrete roster and trace. -/
theorem mirror_consistency_run_witness :
    TechMirror ((Schedule.mkInitial 0 6 [(1, true), (1, false)]).run
        [.assign 0 0 .manana, .assign 1 0 .manana, .remove 0 0 .manana]) ∧
      EngSlotSound ((Schedule.mkInitial 0 6 [(1, true), (1, false)]).run
        [.assign 0 0 .manana, .assign 1 0 .manana, .remove 0 0 .manana]) :=
  mirror_consistency_run 0 6 [(1, true), (1, false)] (by decide)
    [.assign 0 0 .manana, .assign 1 0 .manana, .remove 0 0 .manana]

instance : Inhabited Worker := ⟨⟨0, true, [], 0, []⟩⟩

/-- The two-engineer trace on which the claimed engineer-side mirror
equivalence fails: engineer 1 is assigned, then engineer 2 overwrites
the slot. -/
def c1CounterSchedule : Schedule :=
  (Schedule.mkInitial 0 6 [(1, false), (2, false)]).run
    [.assign 0 0 .manana, .assign 1 0 .manana]

/-- C1 counterexample -- after the overwrite, `(0, Mañana)` is still in
engineer 1's shifts although the slot's engineer field no longer equals
engineer 1's id: the displaced engineer's matching shift entry is not
removed, refuting the claimed "if and only if" for engineers. -/
theorem c1_counterexample :
    (0, ShiftType.manana) ∈ (c1CounterSchedule.workers[0]!).shifts ∧
      (c1CounterSchedule.slots 0 ShiftType.manana).engineer ≠
        some (c1CounterSchedule.workers[0]!).id := by
  decide

/- ### C2: single shift per day -/

/-- C2 (amended) -- what `assign_worker`/`remove_worker_from_shift`
actually guarantee per worker and slot: a technologist never records the
same `(date, shift_type)` pair twice.  The claimed single-shift-per-day
bound is false: `assign_worker` performs no same-day check, see the
counterexample. -/
theorem length_filter_le_one_of_nodup {α} [DecidableEq α] {l : List α}
    (h : l.Nodup) (a : α) : (l.filter fun q => q = a).length ≤ 1 := by
  induction l with
  | nil => simp
  | cons x xs ih =>
    rw [List.nodup_cons] at h
    rw [List.filter_cons]
    by_cases hx : x = a
    · subst hx
      have hnil : xs.filter (fun q => q = x) = [] := by
        rw [List.filter_eq_nil_iff]
        intro q hq
        simp only [decide_eq_true_eq]
        intro hEq
        exact h.1 (hEq ▸ hq)
      simp [hnil]
    · simp only [decide_eq_true_eq, hx, if_false]
      exact ih h.2

theorem tech_slot_count_run (a b : Date) (roster : List (Nat × Bool))
    (hr : RosterClassUnique roster) (ops : List Op) :
    ∀ i (hi : i < ((Schedule.mkInitial a b roster).run ops).workers.length),
      (((Schedule.mkInitial a b roster).run ops).workers[i]).isTechnologist = true →
      ∀ p : Date × ShiftType,
        ((((Schedule.mkInitial a b roster).run ops).workers[i]).shifts.filter
          fun q => q = p).length ≤ 1 := by
  intro i hi htech p
  have h := inv_run (inv_mkInitial a b roster hr) ops
  exact length_filter_le_one_of_nodup (h.techShiftsNodup i hi htech) p

/-- Witness for `tech_slot_count_run` at a concrete roster, trace,
worker index and slot pair. -/
theorem tech_slot_count_run_witness :
    ((((Schedule.mkInitial 0 6 [(1, true)]).run
        [.assign 0 0 .manana, .assign 0 0 .manana]).workers.get
        ⟨0, by decide⟩).shifts.filter
      fun q => q = ((0, ShiftType.manana) : Date × ShiftType)).length ≤ 1 :=
  tech_slot_count_run 0 6 [(1, true)] (by decide)
    [.assign 0 0 .manana, .assign 0 0 .manana] 0 (by decide) (by decide)
    (0, ShiftType.manana)

/-- One technologist assigned Morning and Afternoon of the same day by
two successful `assign_worker` calls. -/
def c2CounterSchedule : Schedule :=
  (Schedule.mkInitial 0 6 [(1, true)]).run [.assign 0 0 .manana, .assign 0 0 .tarde]

/-- C2 counterexample -- after two `assign_worker` calls with the same
date and distinct shift types, the worker holds two shifts on date 0:
`assign_worker` does not enforce the single-shift-per-day invariant. -/
theorem c2_counterexample :
    (c2CounterSchedule.workers[0]!).shifts = [(0, .manana), (0, .tarde)] ∧
      1 < ((c2CounterSchedule.workers[0]!).shifts.countP fun p => p.1 == 0) := by
  decide

/- ### C3: earnings as the sum of shift compensations -/

/-- The claimed equation between running earnings and the compensation
sum over the worker's shifts. -/
def EarningsInvariant (s : Schedule) : Prop :=
  ∀ w ∈ s.workers,
    w.earnings = (w.shifts.map fun p => calculate_compensation p.1 p.2).sum

theorem assign_worker_success_worker {s : Schedule} {w : Worker} {d : Date}
    {st : ShiftType} (hsucc : (assign_worker s w d st).2.2 = true) :
    (assign_worker s w d st).2.1 = w.add_shift d st := by
  by_cases hr : s.inRange d = true
  · by_cases ht : w.isTechnologist = true
    · by_cases hm : w.id ∈ (s.slots d st).technologists
      · rw [assign_worker_dup hr ht hm] at hsucc
        simp at hsucc
      · rw [assign_worker_tech hr ht hm]
    · rw [assign_worker_eng hr (by simpa using ht)]
  · rw [assign_worker_out (by simpa using hr)] at hsucc
    simp at hsucc

theorem earnings_assignAt {s : Schedule} (h : EarningsInvariant s)
    (i : Nat) (d : Date) (st : ShiftType) : EarningsInvariant (s.assignAt i d st) := by
  cases hw : s.workers[i]? with
  | none => rw [assignAt_none hw]; exact h
  | some w =>
    by_cases hsucc : (assign_worker s w d st).2.2 = true
    · rw [assignAt_success hw hsucc]
      intro w' hw'
      rcases List.mem_or_eq_of_mem_set hw' with h1 | rfl
      · exact h w' h1
      · rw [assign_worker_success_worker hsucc]
        have hi := getElem?_some_lt hw
        have hmem : w ∈ s.workers := by
          rw [← getElem?_some_eq hw hi]
          exact List.getElem_mem hi
        simp [h w hmem]
    · rw [assignAt_of_fail hw (by simpa using hsucc)]
      exact h

/-- C3 (amended) -- the earnings equation holds after every
`assign_worker` call, for schedules mutated by `assign_worker`
exclusively: `Worker.add_shift` adds the shift's compensation.
It does not survive `remove_worker_from_shift`, which deletes the
shift entry without touching earnings (see the counterexample). -/
theorem earnings_run {s : Schedule} (h : EarningsInvariant s) (ops : List Op)
    (hops : ∀ o ∈ ops, o.isAssign = true) : EarningsInvariant (s.run ops) := by
  induction ops generalizing s with
  | nil => exact h
  | cons o rest ih =>
    cases o with
    | assign i d st =>
      exact ih (earnings_assignAt h i d st) fun o ho => hops o (List.mem_cons_of_mem _ ho)
    | remove i d st =>
      have hcon := hops (.remove i d st) (List.mem_cons_self _ _)
      simp [Op.isAssign] at hcon

/-- C3 (amended) -- the earnings equation holds after every
`assign_worker` call, for schedules mutated by `assign_worker`
exclusively: `Worker.add_shift` adds the shift's compensation.
It does not survive `remove_worker_from_shift`, which deletes the
shift entry without touching earnings (see the counterexample). -/
theorem earnings_sum_assign_only (a b : Date) (roster : List (Nat × Bool))
    (ops : List Op) (hops : ∀ o ∈ ops, o.isAssign = true) :
    EarningsInvariant ((Schedule.mkInitial a b roster).run ops) := by
  have hinit : EarningsInvariant (Schedule.mkInitial a b roster) := by
    intro w hw
    simp only [Schedule.mkInitial, List.mem_map] at hw
    obtain ⟨p, -, rfl⟩ := hw
    simp [initialWorker]
  exact earnings_run hinit ops hops

/-- Witness for `earnings_sum_assign_only` at a concrete trace. -/
theorem earnings_sum_assign_only_witness :
    EarningsInvariant ((Schedule.mkInitial 0 6 [(1, true), (1, false)]).run
      [.assign 0 0 .manana, .assign 1 0 .noche]) :=
  earnings_sum_assign_only 0 6 [(1, true), (1, false)]
    [.assign 0 0 .manana, .assign 1 0 .noche] (by decide)

/-- One assignment followed by one removal: earnings keep the paid
compensation of the removed shift. -/
def c3CounterSchedule : Schedule :=
  (Schedule.mkInitial 0 6 [(1, true)]).run [.assign 0 0 .manana, .remove 0 0 .manana]

/-- C3 counterexample -- after `remove_worker_from_shift` the worker's
shift list is empty but earnings still hold the compensation (16
eighths = 2.0, the 2025-01-01 holiday day rate) of the removed shift,
so the claimed equation fails after a removal. -/
theorem c3_counterexample :
    (c3CounterSchedule.workers[0]!).shifts = [] ∧
      (c3CounterSchedule.workers[0]!).earnings = 16 ∧
      ((c3CounterSchedule.workers[0]!).shifts.map
        fun p => calculate_compensation p.1 p.2).sum = 0 ∧
      (16 : Money) ≠ 0 := by
  decide

/- ### C4: idempotence of repeated assignment -/

/-- C4 (amended) -- for a technologist, calling `assign_worker` twice
with the same `(worker, date, shift_type)` leaves the entire schedule
state exactly as after the first call: the duplicate is rejected as a
no-op, so in particular the slot's technologist list keeps its size and
the worker's earnings keep their value.  (For an engineer this is false:
the claimed idempotence does not hold, see the counterexample.) -/
theorem assign_idempotent_for_tech (s : Schedule) (i : Nat) (d : Date)
    (st : ShiftType) {w : Worker} (hw : s.workers[i]? = some w)
    (htech : w.isTechnologist = true) :
    (s.assignAt i d st).assignAt i d st = s.assignAt i d st := by
  by_cases hr : s.inRange d = true
  · by_cases hm : w.id ∈ (s.slots d st).technologists
    · have h1 : s.assignAt i d st = s :=
        assignAt_of_fail hw (by rw [assign_worker_dup hr htech hm])
      rw [h1]
      exact h1
    · have hsucc : (assign_worker s w d st).2.2 = true := by
        rw [assign_worker_tech hr htech hm]
      have h1 : s.assignAt i d st =
          { s with
            slots := updateSlot s.slots d st
              { s.slots d st with
                technologists := (s.slots d st).technologists ++ [w.id] },
            workers := s.workers.set i (w.add_shift d st) } := by
        rw [assignAt_success hw hsucc, assign_worker_tech hr htech hm]
      rw [h1]
      have hi : i < s.workers.length := getElem?_some_lt hw
      apply assignAt_of_fail (w := w.add_shift d st)
      · show (s.workers.set i (w.add_shift d st))[i]? = some (w.add_shift d st)
        exact List.getElem?_set_self hi
      · apply (Bool.eq_false_iff.mpr)
        intro hsucc2
        have := assign_worker_success_worker hsucc2
        rw [assign_worker_dup (s := { s with
            slots := updateSlot s.slots d st
              { s.slots d st with
                technologists := (s.slots d st).technologists ++ [w.id] },
            workers := s.workers.set i (w.add_shift d st) })
          (by exact hr) (by simpa using htech)
          (by simp)] at hsucc2
        simp at hsucc2
  · have h1 : s.assignAt i d st = s :=
      assignAt_of_fail hw (by rw [assign_worker_out (by simpa using hr)])
    rw [h1]
    exact h1

/-- Witness for `assign_idempotent_for_tech` at a concrete schedule. -/
theorem assign_idempotent_for_tech_witness :
    ((Schedule.mkInitial 0 6 [(1, true)]).assignAt 0 0 .manana).assignAt 0 0 .manana =
      (Schedule.mkInitial 0 6 [(1, true)]).assignAt 0 0 .manana :=
  @assign_idempotent_for_tech (Schedule.mkInitial 0 6 [(1, true)]) 0 0 .manana
    (initialWorker (1, true)) (by decide) (by decide)

/-- One engineer assigned twice to the same slot by two `assign_worker`
calls with identical arguments. -/
def c4CounterSchedule1 : Schedule :=
  (Schedule.mkInitial 0 6 [(1, false)]).run [.assign 0 0 .manana]

/-- The same engineer assigned twice. -/
def c4CounterSchedule2 : Schedule :=
  (Schedule.mkInitial 0 6 [(1, false)]).run [.assign 0 0 .manana, .assign 0 0 .manana]

/-- C4 counterexample -- the claim quantifies over every worker
(technologist or engineer); for an engineer the second identical
`assign_worker` call is not rejected: it appends a duplicate shift entry
and adds the compensation again (32 = 2 times the 16-eighth holiday day
rate), so earnings are not equal to their value after the first call. -/
theorem c4_counterexample :
    (c4CounterSchedule1.workers[0]!).earnings = 16 ∧
      (c4CounterSchedule2.workers[0]!).earnings = 32 ∧
      (32 : Money) ≠ 16 ∧
      (c4CounterSchedule2.workers[0]!).shifts = [(0, .manana), (0, .manana)] := by
  decide

/- ### C7: Day-Off Planner, phase 1 -/

/-- The phase-1 proviso for marking `x` as a day off
(src/algorithms/day_off_planner.py lines 72-75): `x` lies in the week's
effective range and the worker has no shift on `x`. -/
def dayOffCandidateOk (w : Worker) (effStart effEnd x : Date) : Bool :=
  decide (effStart ≤ x ∧ x ≤ effEnd) && !(w.shifts.any fun q => decide (q.1 = x))

/-- The worker's Night shifts inside the week's effective range
(src/algorithms/day_off_planner.py lines 62-63). -/
def weekNightShifts (w : Worker) (effStart effEnd : Date) : List (Date × ShiftType) :=
  w.shifts.filter fun p =>
    decide (p.2 = ShiftType.noche) && decide (effStart ≤ p.1 ∧ p.1 ≤ effEnd)

/-- Phase 1 of `ensure_weekly_days_off` for one worker and one week
(src/algorithms/day_off_planner.py lines 52-79): if the worker already
has a day off inside the effective range, nothing is marked; otherwise
the week's night shifts are sorted ascending by date
(`night_shifts.sort(key=lambda x: x[0])`) and the loop marks the day
after the first night shift that passes the proviso, then breaks.
Returns the day that gets marked, if any. -/
def phase1DayOff (w : Worker) (effStart effEnd : Date) : Option Date :=
  if (w.daysOff.filter fun x => decide (effStart ≤ x ∧ x ≤ effEnd)) ≠ [] then none
  else
    (((weekNightShifts w effStart effEnd).insertionSort fun a b => a.1 ≤ b.1).find?
      fun p => dayOffCandidateOk w effStart effEnd (p.1 + 1)).map fun p => p.1 + 1

/-- Claim C7's wording of phase 1: mark the day immediately after the
latest Night shift of the week, provided that day is shift-free and in
the effective range. -/
def phase1DayOffSpec (w : Worker) (effStart effEnd : Date) : Option Date :=
  if (w.daysOff.filter fun x => decide (effStart ≤ x ∧ x ≤ effEnd)) ≠ [] then none
  else
    match ((weekNightShifts w effStart effEnd).map fun p => p.1).max? with
    | none => none
    | some m =>
      if dayOffCandidateOk w effStart effEnd (m + 1) then some (m + 1) else none

/-- A worker with Night shifts on days 0 and 2 of the week 0..6 and no
day off yet; both follow-up days 1 and 3 are free. -/
def c7Worker : Worker := ⟨1, true, [(0, .noche), (2, .noche)], 0, []⟩

/-- C7 counterexample -- phase 1 marks day 1, the day after the
EARLIEST night shift of the week, while the claim's rule (day after the
latest night shift, whose follow-up day 3 is free and in range) yields
day 3: the code sorts the night shifts ascending and stops at the first
success, refuting the claim. -/
theorem c7_counterexample :
    phase1DayOff c7Worker 0 6 = some 1 ∧
      phase1DayOffSpec c7Worker 0 6 = some 3 ∧
      (some 1 : Option Date) ≠ some 3 := by
  decide

theorem find?_split {α} {p : α → Bool} {l : List α} {x : α}
    (h : l.find? p = some x) :
    ∃ l1 l2, l = l1 ++ x :: l2 ∧ (∀ y ∈ l1, p y = false) ∧ p x = true := by
  induction l with
  | nil => cases h
  | cons a as ih =>
    by_cases hpa : p a = true
    · rw [List.find?_cons_of_pos _ hpa] at h
      injection h with h
      subst h
      exact ⟨[], as, rfl, by simp, hpa⟩
    · rw [List.find?_cons_of_neg _ hpa] at h
      obtain ⟨l1, l2, rfl, h1, h2⟩ := ih h
      refine ⟨a :: l1, l2, rfl, ?_, h2⟩
      intro y hy
      rcases List.mem_cons.mp hy with rfl | hy
      · exact Bool.eq_false_iff.mpr hpa
      · exact h1 y hy

instance : IsTotal (Date × ShiftType) (fun a b => a.1 ≤ b.1) :=
  ⟨fun a b => Nat.le_total a.1 b.1⟩

instance : IsTrans (Date × ShiftType) (fun a b => a.1 ≤ b.1) :=
  ⟨fun _ _ _ => Nat.le_trans⟩

/-- C7 (amended) -- when phase 1 marks a day off for a worker and week,
the worker had no day off in the week yet, and the marked day is the day
immediately after the EARLIEST (not latest) Night shift of that week
whose following day lies in the effective range and carries no other
shift. -/
theorem phase1DayOff_is_earliest_qualifying (w : Worker) (a b x : Date)
    (h : phase1DayOff w a b = some x) :
    (w.daysOff.filter fun y => decide (a ≤ y ∧ y ≤ b)) = [] ∧
      ∃ n, (n, ShiftType.noche) ∈ w.shifts ∧ a ≤ n ∧ n ≤ b ∧ x = n + 1 ∧
        dayOffCandidateOk w a b (n + 1) = true ∧
        ∀ m, (m, ShiftType.noche) ∈ w.shifts → a ≤ m → m ≤ b →
          dayOffCandidateOk w a b (m + 1) = true → n ≤ m := by
  unfold phase1DayOff at h
  by_cases hguard : (w.daysOff.filter fun y => decide (a ≤ y ∧ y ≤ b)) ≠ []
  · rw [if_pos hguard] at h
    cases h
  · rw [if_neg hguard] at h
    refine ⟨not_not.mp hguard, ?_⟩
    rw [Option.map_eq_some'] at h
    obtain ⟨q, hq, rfl⟩ := h
    have hsorted : List.Sorted (fun u v : Date × ShiftType => u.1 ≤ v.1)
        ((weekNightShifts w a b).insertionSort fun u v => u.1 ≤ v.1) :=
      List.sorted_insertionSort _ _
    have hperm := List.perm_insertionSort
      (fun u v : Date × ShiftType => u.1 ≤ v.1) (weekNightShifts w a b)
    obtain ⟨l1, l2, hsplit, hfail, hok⟩ := find?_split hq
    have hqmem : q ∈ weekNightShifts w a b := by
      rw [← hperm.mem_iff, hsplit]
      exact List.mem_append_right _ (List.mem_cons_self _ _)
    have hqprops : q ∈ w.shifts ∧ q.2 = ShiftType.noche ∧ a ≤ q.1 ∧ q.1 ≤ b := by
      have := List.mem_filter.mp hqmem
      simp only [Bool.and_eq_true, decide_eq_true_eq] at this
      exact ⟨this.1, this.2.1, this.2.2.1, this.2.2.2⟩
    refine ⟨q.1, ?_, hqprops.2.2.1, hqprops.2.2.2, rfl, hok, ?_⟩
    · have hx := hqprops.1
      have := hqprops.2.1
      rwa [show ((q.1, ShiftType.noche) : Date × ShiftType) = q from
        Prod.ext rfl this.symm]
    · intro m hm hma hmb hmok
      by_contra hlt
      push_neg at hlt
      have hmmem : (m, ShiftType.noche) ∈ weekNightShifts w a b := by
        unfold weekNightShifts
        rw [List.mem_filter]
        simp [hm, hma, hmb]
      have hmsorted : (m, ShiftType.noche) ∈ l1 ++ q :: l2 := by
        rw [← hsplit, hperm.mem_iff]
        exact hmmem
      rcases List.mem_append.mp hmsorted with h1 | h2
      · have := hfail _ h1
        rw [hmok] at this
        cases this
      · rcases List.mem_cons.mp h2 with hEq | h3
        · have hmq : m = q.1 := by rw [← hEq]
          exact absurd hmq (Nat.ne_of_lt hlt)
        · have hpw : ∀ y ∈ q :: l2, q.1 ≤ y.1 := by
            rw [hsplit] at hsorted
            have hcons := (List.pairwise_append.mp hsorted).2.1
            intro y hy
            rcases List.mem_cons.mp hy with rfl | hy
            · exact Nat.le_refl _
            · exact List.rel_of_pairwise_cons hcons hy
          have := hpw _ (List.mem_cons_of_mem _ h3)
          simp at this
          exact absurd this (Nat.not_le_of_lt hlt)

/-- Witness for `phase1DayOff_is_earliest_qualifying` at the concrete
counterexample worker. -/
theorem phase1DayOff_is_earliest_qualifying_witness :
    (c7Worker.daysOff.filter fun y => decide (0 ≤ y ∧ y ≤ 6)) = [] ∧
      ∃ n, (n, ShiftType.noche) ∈ c7Worker.shifts ∧ 0 ≤ n ∧ n ≤ 6 ∧ (1 : Date) = n + 1 ∧
        dayOffCandidateOk c7Worker 0 6 (n + 1) = true ∧
        ∀ m, (m, ShiftType.noche) ∈ c7Worker.shifts → 0 ≤ m → m ≤ 6 →
          dayOffCandidateOk c7Worker 0 6 (m + 1) = true → n ≤ m :=
  phase1DayOff_is_earliest_qualifying c7Worker 0 6 1 (by decide)

/- ### C9: premium-shift transfer in the balancer -/

/-- Premium test used by `transfer_premium_shift`
(src/algorithms/balancer.py lines 410-416): weekend, Night, or
holiday. -/
def isPremiumShift (d : Date) (st : ShiftType) : Bool :=
  isWeekendDate d || decide (st = ShiftType.noche) || is_colombian_holiday d

/-- The donor's premium shifts (src/algorithms/balancer.py lines
409-416). -/
def premiumShiftsOf (w : Worker) : List (Date × ShiftType) :=
  w.shifts.filter fun p => isPremiumShift p.1 p.2

/-- The donor's premium shifts ordered by actual compensation value,
descending (`premium_shifts.sort(key=premium_value, reverse=True)`,
src/algorithms/balancer.py lines 419-424).  Tie order between shifts of
equal value is irrelevant to every property proved below. -/
def sortedPremiumShifts (w : Worker) : List (Date × ShiftType) :=
  (premiumShiftsOf w).insertionSort fun a b =>
    calculate_compensation b.1 b.2 ≤ calculate_compensation a.1 a.2

/-- The per-shift acceptance test of the transfer loop
(src/algorithms/balancer.py lines 427-456): recipient has no day off and
no shift on the date, passes the night-to-day and consecutive checks
(rest is deliberately not re-checked), the projected earnings keep the
donor at least as rich as the recipient, and the date is in the
schedule's day index. -/
def premiumTransferOk (s : Schedule) (fromW toW : Worker)
    (d : Date) (st : ShiftType) : Bool :=
  !(decide (d ∈ toW.daysOff)) &&
  !(toW.shifts.any fun q => decide (q.1 = d)) &&
  !(check_night_to_day_transition toW d st) &&
  !(check_consecutive_shifts toW d st) &&
  decide (toW.earnings + calculate_compensation d st ≤
    fromW.earnings - calculate_compensation d st) &&
  s.inRange d

/-- The `(date, shift_type)` executed by `transfer_premium_shift`: the
first shift of the compensation-descending premium list passing the
acceptance test. -/
def transferPick (s : Schedule) (fromW toW : Worker) : Option (Date × ShiftType) :=
  (sortedPremiumShifts fromW).find? fun p => premiumTransferOk s fromW toW p.1 p.2

/-- Removing the donor's id from the slot grid (src/algorithms/
balancer.py lines 458-465). -/
def removeFromSlotGrid (slots : Date → ShiftType → Slot) (w : Worker)
    (d : Date) (st : ShiftType) : Date → ShiftType → Slot :=
  let slot := slots d st
  if w.isTechnologist then
    if w.id ∈ slot.technologists then
      updateSlot slots d st { slot with technologists := slot.technologists.erase w.id }
    else slots
  else
    if slot.engineer = some w.id then
      updateSlot slots d st { slot with engineer := none }
    else slots

/-- The state effect of an executed transfer (src/algorithms/balancer.py
lines 453-476): remove the donor from the slot and its shift list,
assign the recipient through `Schedule.assign_worker`, then overwrite
both workers' earnings with the projected values. -/
def transferExec (s : Schedule) (fromW toW : Worker) (d : Date) (st : ShiftType) :
    (Date → ShiftType → Slot) × Worker × Worker :=
  let c := calculate_compensation d st
  let slots1 := removeFromSlotGrid s.slots fromW d st
  let from1 := fromW.dropShift d st
  let r := assign_worker { s with slots := slots1 } toW d st
  (r.1, { from1 with earnings := fromW.earnings - c },
   { r.2.1 with earnings := toW.earnings + c })

/-- `transfer_premium_shift` (src/algorithms/balancer.py lines 390-480):
the picked shift together with the updated slot grid and the two updated
workers, or `none` when no premium shift passes the test. -/
def transfer_premium_shift (s : Schedule) (fromW toW : Worker) :
    Option ((Date × ShiftType) × (Date → ShiftType → Slot) × Worker × Worker) :=
  (transferPick s fromW toW).map fun p => (p, transferExec s fromW toW p.1 p.2)

instance : IsTotal (Date × ShiftType)
    (fun a b => calculate_compensation b.1 b.2 ≤ calculate_compensation a.1 a.2) :=
  ⟨fun a b => Int.le_total (calculate_compensation b.1 b.2) (calculate_compensation a.1 a.2)⟩

instance : IsTrans (Date × ShiftType)
    (fun a b => calculate_compensation b.1 b.2 ≤ calculate_compensation a.1 a.2) :=
  ⟨fun _ _ _ hab hbc => Int.le_trans hbc hab⟩

/-- C9 -- whenever `transfer_premium_shift` executes a transfer: the
moved shift is premium and held by the donor; the recipient had no shift
and no day off on that date and passes the night-to-day and
consecutive checks (rest is not re-checked); the donor's post-transfer
earnings remain at least the recipient's (no inversion of who is
richer); the earnings gap strictly narrows; and every strictly more
valuable premium shift of the donor failed the acceptance test, i.e.
the tried order is descending by compensation value. -/
theorem transfer_premium_shift_properties (s : Schedule) (fromW toW : Worker)
    (d : Date) (st : ShiftType) (slots' : Date → ShiftType → Slot) (fw' tw' : Worker)
    (h : transfer_premium_shift s fromW toW = some ((d, st), slots', fw', tw')) :
    isPremiumShift d st = true ∧ (d, st) ∈ fromW.shifts ∧
      d ∉ toW.daysOff ∧ (∀ q ∈ toW.shifts, q.1 ≠ d) ∧
      check_night_to_day_transition toW d st = false ∧
      check_consecutive_shifts toW d st = false ∧
      fw'.earnings = fromW.earnings - calculate_compensation d st ∧
      tw'.earnings = toW.earnings + calculate_compensation d st ∧
      tw'.earnings ≤ fw'.earnings ∧
      fw'.earnings - tw'.earnings < fromW.earnings - toW.earnings ∧
      0 ≤ fw'.earnings - tw'.earnings ∧
      (∀ q ∈ premiumShiftsOf fromW,
        calculate_compensation d st < calculate_compensation q.1 q.2 →
          premiumTransferOk s fromW toW q.1 q.2 = false) := by
  unfold transfer_premium_shift at h
  rw [Option.map_eq_some'] at h
  obtain ⟨p, hpick, hEq⟩ := h
  have hp1 : p = (d, st) := congrArg Prod.fst hEq
  subst hp1
  have hexec : transferExec s fromW toW d st = (slots', fw', tw') :=
    congrArg Prod.snd hEq
  have hfw : fw' = { fromW.dropShift d st with
      earnings := fromW.earnings - calculate_compensation d st } := by
    have := congrArg (fun t => t.2.1) hexec
    simpa [transferExec] using this.symm
  have htw : tw'.earnings = toW.earnings + calculate_compensation d st := by
    have := congrArg (fun t => t.2.2) hexec
    rw [show tw' = ((transferExec s fromW toW d st).2.2) from this.symm]
    simp [transferExec]
  unfold transferPick at hpick
  obtain ⟨l1, l2, hsplit, hfail, hok⟩ := find?_split hpick
  have hperm2 : (sortedPremiumShifts fromW).Perm (premiumShiftsOf fromW) :=
    List.perm_insertionSort _ _
  have hmem : (d, st) ∈ premiumShiftsOf fromW := by
    rw [← hperm2.mem_iff, hsplit]
    exact List.mem_append_right _ (List.mem_cons_self _ _)
  have hshift : (d, st) ∈ fromW.shifts ∧ isPremiumShift d st = true := by
    have := List.mem_filter.mp hmem
    exact ⟨this.1, this.2⟩
  simp only [premiumTransferOk, Bool.and_eq_true, Bool.not_eq_true',
    decide_eq_false_iff_not, decide_eq_true_eq] at hok
  obtain ⟨⟨⟨⟨⟨hdoff, hsame⟩, hntd⟩, hcons⟩, hequity⟩, hrange⟩ := hok
  have hc := one_le_calculate_compensation d st
  have hfwE : fw'.earnings = fromW.earnings - calculate_compensation d st := by
    rw [hfw]
  refine ⟨hshift.2, hshift.1, hdoff, ?_, hntd, hcons, hfwE, htw, ?_, ?_, ?_, ?_⟩
  · intro q hq
    by_contra hqd
    have : toW.shifts.any (fun q => decide (q.1 = d)) = true := by
      rw [List.any_eq_true]
      exact ⟨q, hq, by simp [hqd]⟩
    rw [this] at hsame
    cases hsame
  · rw [hfwE, htw]
    exact hequity
  · rw [hfwE, htw]
    linarith
  · rw [hfwE, htw]
    linarith
  · intro q hq hgt
    by_contra hqok
    rw [Bool.not_eq_false] at hqok
    have hqsorted : q ∈ l1 ++ (d, st) :: l2 := by
      rw [← hsplit]
      exact hperm2.mem_iff.mpr hq
    rcases List.mem_append.mp hqsorted with h1 | h2
    · have := hfail _ h1
      rw [hqok] at this
      cases this
    · rcases List.mem_cons.mp h2 with rfl | h3
      · exact absurd hgt (lt_irrefl _)
      · have hsorted : List.Sorted
            (fun a b : Date × ShiftType =>
              calculate_compensation b.1 b.2 ≤ calculate_compensation a.1 a.2)
            (sortedPremiumShifts fromW) := List.sorted_insertionSort _ _
        rw [hsplit] at hsorted
        have hcons2 := (List.pairwise_append.mp hsorted).2.1
        have := List.rel_of_pairwise_cons hcons2 h3
        exact absurd hgt (not_lt.mpr this)

/-- The schedule for the transfer witness. -/
def c9Schedule : Schedule := Schedule.mkInitial 0 6 [(1, true), (2, true)]

/-- A donor technologist holding one premium shift (Saturday night,
day 3) and earnings 100.0 (800 eighths), as in the spec's Scenario C. -/
def c9From : Worker := ⟨1, true, [(3, .noche)], 800, []⟩

/-- A recipient technologist with earnings 70.0 (560 eighths). -/
def c9To : Worker := ⟨2, true, [], 560, []⟩

/-- Witness for `transfer_premium_shift_properties` on the Scenario-C
pair: the transfer of the Saturday-night shift executes and all stated
properties hold. -/
theorem transfer_premium_shift_properties_witness :
    isPremiumShift 3 .noche = true ∧ (3, ShiftType.noche) ∈ c9From.shifts ∧
      3 ∉ c9To.daysOff ∧ (∀ q ∈ c9To.shifts, q.1 ≠ 3) ∧
      check_night_to_day_transition c9To 3 .noche = false ∧
      check_consecutive_shifts c9To 3 .noche = false ∧
      (transferExec c9Schedule c9From c9To 3 .noche).2.1.earnings =
        c9From.earnings - calculate_compensation 3 .noche ∧
      (transferExec c9Schedule c9From c9To 3 .noche).2.2.earnings =
        c9To.earnings + calculate_compensation 3 .noche ∧
      (transferExec c9Schedule c9From c9To 3 .noche).2.2.earnings ≤
        (transferExec c9Schedule c9From c9To 3 .noche).2.1.earnings ∧
      (transferExec c9Schedule c9From c9To 3 .noche).2.1.earnings -
          (transferExec c9Schedule c9From c9To 3 .noche).2.2.earnings <
        c9From.earnings - c9To.earnings ∧
      0 ≤ (transferExec c9Schedule c9From c9To 3 .noche).2.1.earnings -
          (transferExec c9Schedule c9From c9To 3 .noche).2.2.earnings ∧
      (∀ q ∈ premiumShiftsOf c9From,
        calculate_compensation 3 .noche < calculate_compensation q.1 q.2 →
          premiumTransferOk c9Schedule c9From c9To q.1 q.2 = false) :=
  transfer_premium_shift_properties c9Schedule c9From c9To 3 .noche
    (transferExec c9Schedule c9From c9To 3 .noche).1
    (transferExec c9Schedule c9From c9To 3 .noche).2.1
    (transferExec c9Schedule c9From c9To 3 .noche).2.2
    (by
      unfold transfer_premium_shift
      rw [show transferPick c9Schedule c9From c9To = some (3, ShiftType.noche) from
        by decide]
      rfl)

/- ### C10: lookahead impact prediction leaves live state unchanged -/

/-- `get_recent_shifts` (src/algorithms/common.py lines 22-34): shifts
with `0 <= (date - d).days < days`. -/
def get_recent_shifts (w : Worker) (d : Date) (days : Nat) : List (Date × ShiftType) :=
  w.shifts.filter fun p =>
    decide (0 ≤ (d : ℤ) - p.1) && decide ((d : ℤ) - p.1 < days)

/-- `Worker.get_shift_types_count` (src/core/worker.py lines 73-78) for
one shift type. -/
def shiftTypeCount (w : Worker) (t : ShiftType) : Nat :=
  (w.shifts.filter fun p => decide (p.2 = t)).length

/-- `Worker.can_work_shift` (src/core/worker.py lines 30-50): day off,
consecutive, night-to-day and adequate-rest checks in order. -/
def Worker.can_work_shift (w : Worker) (d : Date) (st : ShiftType) : Bool :=
  if d ∈ w.daysOff then false
  else if check_consecutive_shifts w d st then false
  else if check_night_to_day_transition w d st then false
  else if !(check_adequate_rest w d st) then false
  else true

/-- `strictly_can_work_shift` (src/algorithms/generator.py lines
382-437): the full strict eligibility check.  The `schedule` parameter
is unused by the source body except for its presence in the signature. -/
def strictly_can_work_shift (w : Worker) (d : Date) (st : ShiftType)
    (_s : Schedule) : Bool :=
  if !(w.can_work_shift d st) then false
  else if 3 ≤ (get_recent_shifts w d 3).length then false
  else if
      (max (shiftTypeCount w .manana) (max (shiftTypeCount w .tarde)
          (shiftTypeCount w .noche)) -
        min (shiftTypeCount w .manana) (min (shiftTypeCount w .tarde)
          (shiftTypeCount w .noche)) > 5) ∧
      shiftTypeCount w st =
        max (shiftTypeCount w .manana) (max (shiftTypeCount w .tarde)
          (shiftTypeCount w .noche)) then false
  else if (st = ShiftType.tarde) ∧
      (w.shifts.any fun p => decide (p.1 = d + 1) && decide (p.2 = ShiftType.noche)) then
    false
  else if w.shifts.any fun p => decide (p.1 = d) then false
  else if !(check_adequate_rest w d st) then false
  else if check_night_to_day_transition w d st then false
  else if check_consecutive_shifts w d st then false
  else true

/-- The violation messages of `predict_assignment_impact`, as tags with
their numeric payloads (the display strings are not modelled). -/
inductive ImpactViolation
  | dayOffViolation
  | alreadyAssignedThatDay
  | nightToDay
  | consecutive
  | inadequateRest
  | blocksFuture (n : Nat)
  | longRun (maxConsecutive : Nat)
  | typeImbalance (diff : Nat)
deriving DecidableEq, Repr

/-- The result triple of `predict_assignment_impact`: `score = none`
models the early-return `float('inf')`. -/
structure ImpactResult where
  canAssign : Bool
  violations : List ImpactViolation
  score : Option Nat
deriving DecidableEq, Repr

/-- The (day-offset, shift-type) pairs of the 3-day lookahead loop
(src/algorithms/common.py lines 83-90), day-major like the source. -/
def futurePairs : List (Nat × ShiftType) :=
  ([1, 2, 3] : List Nat).flatMap fun k => [(k, .manana), (k, .tarde), (k, .noche)]

/-- One iteration of the lookahead loop (src/algorithms/common.py lines
90-111): append the proposed shift to the worker's list, run the strict
check for the future slot, restore the saved copy of the list, and
accumulate the weighted blocking penalty.  The accumulator carries the
(mutated-then-restored) worker, the score and the blocking count. -/
def futureStep (s : Schedule) (d : Date) (st : ShiftType)
    (acc : Worker × Nat × Nat) (step : Nat × ShiftType) : Worker × Nat × Nat :=
  let w := acc.1
  let fd := d + step.1
  if s.endDate < fd then acc
  else
    let wSim := { w with shifts := w.shifts ++ [(d, st)] }
    let canFuture := strictly_can_work_shift wSim fd step.2 s
    let wRest := { wSim with shifts := w.shifts }
    if canFuture then (wRest, acc.2.1, acc.2.2)
    else
      let isCritical := isWeekendDate fd || is_colombian_holiday fd
      let shiftCrit : Nat :=
        if step.2 = ShiftType.noche then 3
        else if step.2 = ShiftType.tarde then 2 else 1
      let dayProx := 4 - step.1
      (wRest, acc.2.1 + dayProx * shiftCrit * (if isCritical then 2 else 1),
        acc.2.2 + 1)

/-- The consecutive-worked-days scan over the date-sorted simulated
shift list (src/algorithms/common.py lines 127-135). -/
def maxConsecutiveDays : List (Date × ShiftType) → Nat
  | [] => 1
  | x :: xs => go x xs 1 1
where
  go : (Date × ShiftType) → List (Date × ShiftType) → Nat → Nat → Nat
    | _, [], _, m => m
    | prev, y :: ys, cur, m =>
      if y.1 = prev.1 + 1 then go y ys (cur + 1) (max m (cur + 1))
      else go y ys 1 m

/-- `predict_assignment_impact` (src/algorithms/common.py lines 36-160)
with explicit state threading: returns the worker and schedule as they
stand when the function returns, together with the result triple.  The
lookahead simulation appends the proposed shift, checks, and restores
the saved copy; no other statement of the source writes to the worker or
the schedule. -/
def predict_assignment_impact (s : Schedule) (w : Worker) (d : Date)
    (st : ShiftType) : Worker × Schedule × ImpactResult :=
  let v1 : List ImpactViolation := if d ∈ w.daysOff then [.dayOffViolation] else []
  let s1 : Nat := if d ∈ w.daysOff then 40 else 0
  if w.shifts.any fun p => decide (p.1 = d) then
    (w, s, ⟨false, v1 ++ [.alreadyAssignedThatDay], none⟩)
  else
    let v2 := v1 ++ (if check_night_to_day_transition w d st then [.nightToDay] else [])
    let s2 := s1 + (if check_night_to_day_transition w d st then 30 else 0)
    let v3 := v2 ++ (if check_consecutive_shifts w d st then [.consecutive] else [])
    let s3 := s2 + (if check_consecutive_shifts w d st then 20 else 0)
    let v4 := v3 ++ (if !(check_adequate_rest w d st) then [.inadequateRest] else [])
    let s4 := s3 + (if !(check_adequate_rest w d st) then 15 else 0)
    let fut := futurePairs.foldl (futureStep s d st) (w, s4, 0)
    let w5 := fut.1
    let s5 := fut.2.1
    let blocks := fut.2.2
    let v5 := v4 ++ (if 0 < blocks then [.blocksFuture blocks] else [])
    let temp := ((get_recent_shifts w5 d 5) ++ [(d, st)]).insertionSort
      fun a b => a.1 ≤ b.1
    let maxC := maxConsecutiveDays temp
    let s6 := s5 + (if 3 < maxC then (maxC - 3) * 5 else 0)
    let v6 := v5 ++ (if 3 < maxC then [.longRun maxC] else [])
    let counts := fun t => shiftTypeCount w5 t + (if t = st then 1 else 0)
    let maxT := max (counts .manana) (max (counts .tarde) (counts .noche))
    let minT := min (counts .manana) (min (counts .tarde) (counts .noche))
    let diff := maxT - minT
    let s7 := s6 + (if 3 ≤ diff then diff * 2 else 0)
    let v7 := v6 ++ (if 3 ≤ diff then [.typeImbalance diff] else [])
    let canAssign :=
      decide (s7 < 20) || (decide (s7 < 40) && decide (st = ShiftType.noche))
    (w5, s, ⟨canAssign, v7, some s7⟩)

theorem futureStep_fst (s : Schedule) (d : Date) (st : ShiftType)
    (acc : Worker × Nat × Nat) (step : Nat × ShiftType) :
    (futureStep s d st acc step).1 = acc.1 := by
  unfold futureStep
  dsimp only
  split
  · rfl
  · split
    · rfl
    · rfl

theorem foldl_futureStep_fst (s : Schedule) (d : Date) (st : ShiftType)
    (steps : List (Nat × ShiftType)) (acc : Worker × Nat × Nat) :
    (steps.foldl (futureStep s d st) acc).1 = acc.1 := by
  induction steps generalizing acc with
  | nil => rfl
  | cons x xs ih => rw [List.foldl_cons, ih, futureStep_fst]

/-- C10 -- `predict_assignment_impact` performs its lookahead with no
net mutation of live state: the returned worker has the same shift
sequence, days off and earnings as before the call, and every slot of
the schedule is unchanged.  The simulation's append is undone by
restoring the saved copy of the shift list in the same loop iteration,
and nothing else writes to the worker or the schedule. -/
theorem predict_assignment_impact_frame (s : Schedule) (w : Worker) (d : Date)
    (st : ShiftType) :
    (predict_assignment_impact s w d st).1.shifts = w.shifts ∧
      (predict_assignment_impact s w d st).1.daysOff = w.daysOff ∧
      (predict_assignment_impact s w d st).1.earnings = w.earnings ∧
      ∀ d' st', (predict_assignment_impact s w d st).2.1.slots d' st' = s.slots d' st' := by
  have hw : (predict_assignment_impact s w d st).1 = w := by
    unfold predict_assignment_impact
    dsimp only
    split
    · rfl
    · exact foldl_futureStep_fst s d st futurePairs _
  have hs : (predict_assignment_impact s w d st).2.1 = s := by
    unfold predict_assignment_impact
    dsimp only
    split
    · rfl
    · rfl
  rw [hw, hs]
  exact ⟨rfl, rfl, rfl, fun _ _ => rfl⟩

/- ### C8: constraint-violation repair and the rest-violation messages -/

/-- Messages are modelled as character lists. -/
abbrev Str := List Char

/-- Left-pad a digit string with zeros (Python `%Y`/`%m`/`%d`). -/
def padLeft (k : Nat) (s : Str) : Str :=
  List.replicate (k - s.length) '0' ++ s

/-- `date.strftime("%Y-%m-%d")` for a model date. -/
def fmtDate (d : Date) : Str :=
  let t := ymd d
  padLeft 4 (Nat.toDigits 10 t.1) ++ ['-'] ++
    padLeft 2 (Nat.toDigits 10 t.2.1) ++ ['-'] ++
    padLeft 2 (Nat.toDigits 10 t.2.2)

/-- The display name of a shift type (`SHIFT_TYPES`). -/
def shiftName : ShiftType → Str
  | .manana => "Mañana".toList
  | .tarde => "Tarde".toList
  | .noche => "Noche".toList

/-- `Worker.get_formatted_id` (src/core/worker.py lines 92-94):
class prefix letter followed by the id. -/
def fmtWorkerId (w : Worker) : Str :=
  (if w.isTechnologist then ['T'] else ['I']) ++ Nat.toDigits 10 w.id

/-- The consecutive-shifts message of `validate_schedule`
(src/core/constraints.py lines 143-146). -/
def msgConsecutive (wid : Str) (d1 : Date) (s1 s2 : ShiftType) : Str :=
  wid ++ " tiene turnos consecutivos el ".toList ++ fmtDate d1 ++
    ": ".toList ++ shiftName s1 ++ " y ".toList ++ shiftName s2

/-- The night-to-day message of `validate_schedule`
(src/core/constraints.py lines 150-153). -/
def msgNightToDay (wid : Str) (d1 d2 : Date) : Str :=
  wid ++ " tiene transición de noche a día: ".toList ++ fmtDate d1 ++
    " Noche -> ".toList ++ fmtDate d2 ++ " Mañana".toList

/-- The inadequate-rest message of `validate_schedule`
(src/core/constraints.py lines 161-164): note that it ends with the
second shift's name and contains no period anywhere. -/
def msgInadequateRest (wid : Str) (d1 : Date) (s1 : ShiftType)
    (d2 : Date) (s2 : ShiftType) : Str :=
  wid ++ " no tiene descanso adecuado entre ".toList ++ fmtDate d1 ++
    " ".toList ++ shiftName s1 ++ " y ".toList ++ fmtDate d2 ++
    " ".toList ++ shiftName s2

/-- The per-worker constraint scan of `validate_schedule`
(src/core/constraints.py lines 130-164): sort the worker's shifts by
(date, shift index) and emit, for each adjacent pair, the
consecutive-same-day, night-to-day and inadequate-rest messages that
apply. -/
def worker_constraint_violations (w : Worker) : List Str :=
  let key := fun p : Date × ShiftType => timelinePos p.1 p.2
  let sorted := w.shifts.insertionSort fun a b => key a ≤ key b
  (sorted.zip sorted.tail).flatMap fun pr =>
    (if pr.1.1 = pr.2.1 ∧
        ((shiftIndex pr.1.2 : ℤ) - shiftIndex pr.2.2).natAbs = 1 then
      [msgConsecutive (fmtWorkerId w) pr.1.1 pr.1.2 pr.2.2]
    else []) ++
    (if pr.1.2 = ShiftType.noche ∧ pr.2.2 = ShiftType.manana ∧
        pr.1.1 + 1 = pr.2.1 then
      [msgNightToDay (fmtWorkerId w) pr.1.1 pr.2.1]
    else []) ++
    (if 0 < (key pr.2 : ℤ) - key pr.1 ∧ (key pr.2 : ℤ) - key pr.1 ≤ 2 then
      [msgInadequateRest (fmtWorkerId w) pr.1.1 pr.1.2 pr.2.1 pr.2.2]
    else [])

/-- Word characters for the regex `\w` over the alphabet occurring in
the validator's messages (ASCII alphanumerics, underscore, and the
accented letters used by the Spanish shift names and message text). -/
def isWordChar (c : Char) : Bool :=
  c.isAlphanum || c = '_' || c = 'ñ' || c = 'á' || c = 'é' || c = 'í' ||
    c = 'ó' || c = 'ú'

/-- Length of the maximal word-character prefix. -/
def wordRunLength : Str → Nat
  | [] => 0
  | c :: cs => if isWordChar c then wordRunLength cs + 1 else 0

/-- `re.search(r'y (\w+)\.', msg)` (src/algorithms/repair.py line 481):
the leftmost occurrence of `y` + space + a nonempty word run followed by
a literal period, returning the captured word.  Because a period is not
a word character, a backtracking match at a position exists iff the
maximal word run there is nonempty and followed by a period, so the
maximal-run formulation is exact. -/
def reSearchY : Str → Option Str
  | [] => none
  | c :: cs =>
    if c = 'y' then
      match cs with
      | ' ' :: rest =>
        let n := wordRunLength rest
        if 0 < n ∧ (rest.drop n).head? = some '.' then some (rest.take n)
        else reSearchY cs
      | _ => reSearchY cs
    else reSearchY cs

/-- The shifts the constraint-repair pass selects for removal out of a
date's inadequate-rest violations (src/algorithms/repair.py lines
479-491): the regex capture per message; a message on which the regex
raises (returns no match) is skipped by the exception handler and
contributes nothing. -/
def restShiftsToChange (msgs : List Str) : List Str :=
  msgs.filterMap reSearchY

/-- A worker with a Morning and a Night shift on 2025-01-01: timeline
positions 0 and 2, so `validate_schedule` reports exactly one
inadequate-rest violation and no other violation. -/
def c8Worker : Worker := ⟨1, true, [(0, .manana), (0, .noche)], 0, []⟩

/-- C8 -- evaluation at the failing input: `validate_schedule` emits
exactly the inadequate-rest message
`T1 no tiene descanso adecuado entre 2025-01-01 Mañana y 2025-01-01 Noche`;
the repair pass's regex `y (\w+)\.` finds no match in it (the message
never contains the period the pattern requires), so the extraction
raises, the violation is skipped, and no shift is ever selected for
removal: the claimed remove-and-replace behavior for inadequate-rest
violations is unreachable. -/
theorem c8_rest_repair_never_fires :
    worker_constraint_violations c8Worker =
      [msgInadequateRest "T1".toList 0 .manana 0 .noche] ∧
      reSearchY (msgInadequateRest "T1".toList 0 .manana 0 .noche) = none ∧
      restShiftsToChange (worker_constraint_violations c8Worker) = [] := by
  decide

end Horarios
